import Mathlib

/-!
A verification development for the pgCarpenter backup tool.

Object-store keys, bodies and backup names are modelled as lists of
characters (`Key`), matching Go's byte-string manipulation.  The object
store is modelled as an association list from keys to a body and the
`Modified_time` metadata value (an `Int`; the S3 backend returns `0`
when the metadata entry is absent, and `generateS3ObjectMetadata` omits
the entry exactly when the supplied mtime is `0`, so a single integer
field is an exact model of the observable metadata).  Puts prepend, and
lookups take the first match, so a later put of the same key shadows the
earlier object; deletes remove every entry with the key.
-/

namespace PgCarpenter

/-- A key, body or name: a Go string, modelled as its list of characters. -/
abbrev Key := List Char

/-- The object store: each entry is (key, body, modified-time metadata).
`0` in the third component models an absent `Modified_time` entry,
exactly as `s3storage.GetLastModifiedTime` reports it. -/
abbrev Store := List (Key × Key × Int)

/-- `GetString` from `s3storage.go`: the body of the object at `k`,
or `none` when no such object exists (the S3 not-found error). -/
def getString (s : Store) (k : Key) : Option Key :=
  (s.find? (fun o => o.1 = k)).map (fun o => o.2.1)

/-- `GetLastModifiedTime` from `s3storage.go`: fails (`none`) when the
object is absent; otherwise returns the stored metadata value
(`0` standing for an absent `Modified_time` entry). -/
def getLastModifiedTime (s : Store) (k : Key) : Option Int :=
  (s.find? (fun o => o.1 = k)).map (fun o => o.2.2)

/-- A put (`Put`/`PutString`): writes body `b` under key `k` with
modified-time metadata `mt`.  Prepending shadows any older object. -/
def putObject (s : Store) (k b : Key) (mt : Int) : Store :=
  (k, b, mt) :: s

/-- `Delete` from `s3storage.go`: removes the object at key `k`
(every shadowed copy included). -/
def deleteKey : Store → Key → Store
  | [], _ => []
  | o :: t, k => if o.1 = k then deleteKey t k else o :: deleteKey t k

/-- All keys present in the store. -/
def keysOf (s : Store) : List Key :=
  s.map (fun o => o.1)

/-- Boolean key-prefix test (Go `strings.HasPrefix` on byte strings). -/
def leadsKey : Key → Key → Bool
  | [], _ => true
  | _ :: _, [] => false
  | a :: p, b :: k => a = b && leadsKey p k

/-- The root-level common prefix of a key under delimiter `/`: the key up
to and including its first `/`, or `none` for keys without a `/`.  This
is how S3 forms `CommonPrefixes` for a root listing. -/
def rootPrefixOf : Key → Option Key
  | [] => none
  | c :: rest => if c = '/' then some ['/'] else (rootPrefixOf rest).map (fun p => c :: p)

/-- `ListFolder ""` from `s3storage.go`: the distinct root-level child
prefixes (each ending in `/`), as S3 `CommonPrefixes` returns them. -/
def listRoot (s : Store) : List Key :=
  ((keysOf s).filterMap rootPrefixOf).dedup

/-- The net effect of `WalkFolder p` from `s3storage.go`: every key that
properly extends the prefix `p` (the folder marker `p` itself is
skipped by the `*obj.Key == path` check, and the recursion into
`CommonPrefixes` reaches every descendant). -/
def walkKeys (s : Store) (p : Key) : List Key :=
  (keysOf s).filter (fun k => leadsKey p k && k ≠ p)

/-- Reserved name `LATEST` (`latestKey` in `main.go`). -/
def latestName : Key := "LATEST".toList

/-- Reserved folder `successful` (`successfullyCompletedFolder`). -/
def successfulName : Key := "successful".toList

/-- Reserved folder `WAL` (`walFolder`). -/
def walName : Key := "WAL".toList

/-- `strings.TrimSuffix`: drop `suf` from the end of `k` when it is a
suffix, otherwise return `k` unchanged. -/
def trimSuffixKey (k suf : Key) : Key :=
  if suf <:+ k then k.take (k.length - suf.length) else k

/-- The backup's folder-marker key: `name + "/"`. -/
def folderKey (name : Key) : Key := name ++ ['/']

/-- `getSuccessfulMarker` from the create-backup source:
`filepath.Join("successful", name)`.  `filepath.Join` cleans the result,
which for the names this program passes (either a plain backup name or a
root prefix ending in a single `/`) amounts to dropping a trailing
slash. -/
def successfulMarkerKey (name : Key) : Key :=
  successfulName ++ '/' :: trimSuffixKey name ['/']

/-! ### The LZ4 predicate (`util.IsCompressed`, claim C9) -/

/-- The reserved extension `lz4.Extension` = `".lz4"`. -/
def lz4Ext : Key := ".lz4".toList

/-- `util.IsCompressed` from `util/util.go`:
`path[len(path)-len(lz4.Extension):] == lz4.Extension`.
Go slicing `path[i:]` panics when `i < 0`, i.e. when the key is shorter
than the extension; `none` models that runtime panic.  Otherwise the
last four characters are compared with `".lz4"`. -/
def isCompressed (path : Key) : Option Bool :=
  if path.length < lz4Ext.length then none
  else some (path.drop (path.length - lz4Ext.length) = lz4Ext)

/-! ### Path helpers shared by the WAL commands and the backup worker -/

/-- `filepath.Join(a, b)` for the shapes this program produces (a clean
directory-like first component and a relative second component without a
leading slash): concatenation with a single `/` separator. -/
def joinKey (a b : Key) : Key := a ++ '/' :: b

/-- `filepath.Base` for paths that do not end in `/`: everything after
the last slash. -/
def baseName (k : Key) : Key :=
  (k.reverse.takeWhile (fun c => c ≠ '/')).reverse

/-- `getWALObjectKey` from the archive-wal source:
`filepath.Join(walFolder, filepath.Base(walPath)+lz4.Extension)`. -/
def walObjectKey (walPath : Key) : Key :=
  joinKey walName (baseName walPath ++ lz4Ext)

/-! ### The backup worker's per-file decision (claim C5) -/

/-- What `backupWorker` does with one work item. -/
inductive WorkerOutcome where
  | statFailed
  | skippedDir
  | compressFailedSkip
  | uploadFile (key : Key) (compressed : Bool) (mtime : Int)
  deriving DecidableEq

/-- The per-file logic of `backupWorker` (create-backup source): stat the
file (a failure is tolerated and the item skipped), skip directories,
compress into a temporary file and append `.lz4` to the key when the
size is strictly greater than `compressThreshold` (falling back to
skipping the file when compression fails, per the `continue`), and
otherwise upload the original file under the plain key.  `compressOk`
is the outcome of `util.Compress`; `size`/`mtime` come from the stat. -/
def backupWorkerStep (backupName pgFile : Key) (statOk isDir : Bool)
    (size mtime threshold : Int) (compressOk : Bool) : WorkerOutcome :=
  if ¬ statOk then .statFailed
  else if isDir then .skippedDir
  else if size > threshold then
    if compressOk then .uploadFile (joinKey backupName pgFile ++ lz4Ext) true mtime
    else .compressFailedSkip
  else .uploadFile (joinKey backupName pgFile) false mtime

/-! ### archive-wal (claim C6) -/

/-- Environment of one archive-wal run: the outcome of `os.Getwd`, of
`util.Compress` (the temporary file name on success), and of
`storage.Put`. -/
structure ArchiveWALEnv where
  cwd : Option Key
  compressResult : Option Key
  putOk : Bool

/-- `archiveWAL` from the current archive-wal source: resolve the full
path against the working directory, build the object key, compress
(error exits 1), upload with `storage.Put`, remove the temporary file
regardless, and return 1 when the upload failed, else 0.  The second
component is the key passed to `Put` (`none` when no put was
attempted). -/
def archiveWAL (env : ArchiveWALEnv) (walPath : Key) : Nat × Option Key :=
  match env.cwd with
  | none => (1, none)
  | some cwd =>
    let key := walObjectKey (joinKey cwd walPath)
    match env.compressResult with
    | none => (1, none)
    | some _ => if env.putOk then (0, some key) else (1, some key)

/-! ### restore-wal (claims C8 and C10) -/

/-- Character class `[0-9]` of the Go regexp. -/
def isDigitChar (c : Char) : Bool := '0' ≤ c && c ≤ '9'

/-- Go's regexp `[0-9]+\.history` matching at the start of `cs`: a
nonempty digit run followed immediately by the literal `.history`.
Because `.` is not a digit, the greedy run is the only viable length,
so this coincides with RE2 semantics at this position. -/
def historyMatchAtHead (cs : Key) : Bool :=
  let ds := cs.takeWhile isDigitChar
  ds ≠ [] && leadsKey ".history".toList (cs.drop ds.length)

/-- `regexp.MatchString("[0-9]+\\.history", s)`: an unanchored search,
true iff the pattern matches at some position. -/
def historyMatch : Key → Bool
  | [] => false
  | c :: rest => historyMatchAtHead (c :: rest) || historyMatch rest

/-- The anchored pattern of the specification, `^[0-9]+\.history$`:
the whole string is a nonempty digit run followed by `.history`. -/
def anchoredHistory (cs : Key) : Bool :=
  let ds := cs.takeWhile isDigitChar
  ds ≠ [] && cs.drop ds.length = ".history".toList

/-- Environment of one restore-wal run: outcome of `os.Getwd`, of
`ioutil.TempFile` (the temporary file name on success), of the storage
`Get`, of closing the temporary file, and of `util.Decompress`. -/
structure RestoreWALEnv where
  cwd : Option Key
  tmpFile : Option Key
  getOk : Bool
  closeOk : Bool
  decompressOk : Bool

/-- How a run terminates: a process exit code, or a Go runtime panic. -/
inductive RunOutcome where
  | exit (code : Nat)
  | panicked
  deriving DecidableEq

/-- A storage operation performed during a run. -/
inductive StorageOp where
  | get (key : Key)
  deriving DecidableEq

/-- `restoreWAL` from the current restore-wal source: resolve the full
path (error exits 1), return 0 for history files before touching
storage, then create a temporary file — the `ioutil.TempFile` error is
never checked, and the immediately following
`defer util.MustRemoveFile(outTmp.Name(), ...)` evaluates
`outTmp.Name()` on the nil handle, a nil-pointer dereference, modelled
as `.panicked` — then `Get` into it (failure exits 1), close it
(failure exits 1), and decompress to the requested path (failure exits
1). -/
def restoreWAL (env : RestoreWALEnv) (walFileName walPath : Key) :
    RunOutcome × List StorageOp :=
  match env.cwd with
  | none => (.exit 1, [])
  | some cwd =>
    let _walFullPath := joinKey cwd walPath
    if historyMatch walFileName then (.exit 0, [])
    else
      let key := walObjectKey walFileName
      match env.tmpFile with
      | none => (.panicked, [])
      | some _ =>
        if ¬ env.getOk then (.exit 1, [.get key])
        else if ¬ env.closeOk then (.exit 1, [.get key])
        else if ¬ env.decompressOk then (.exit 1, [.get key])
        else (.exit 0, [.get key])

/-! ### create-backup (claims C2, C3, C4) -/

/-- An observable action of a create-backup run. -/
inductive Ev where
  | got (k : Key)
  | wrote (k : Key)
  | sqlStart
  | sqlStop
  deriving DecidableEq

/-- Environment of one create-backup run: outcomes of the folder-marker
put, of `pg_start_backup`, the backup mode, the uploads the workers
completed (key, body, mtime), the outcome of the `pg_stop_backup`
statement, the label and tablespace-map payloads it returns, the
outcomes of the four finalization puts, and the wall-clock second used
as `PutString` metadata. -/
structure CreateEnv where
  folderMarkerOk : Bool
  startOk : Bool
  exclusive : Bool
  uploads : List (Key × Key × Int)
  stopStmtOk : Bool
  labelFile : Key
  mapFile : Key
  putLabelOk : Bool
  putMapOk : Bool
  putMarkerOk : Bool
  putLatestOk : Bool
  now : Int

/-- The store after the worker pool performed its uploads. -/
def applyUploads (s : Store) (ups : List (Key × Key × Int)) : Store :=
  ups.foldl (fun st u => putObject st u.1 u.2.1 u.2.2) s

/-- Key `<name>/backup_label` written by `stopBackup`. -/
def backupLabelKey (name : Key) : Key := name ++ "/backup_label".toList

/-- Key `<name>/tablespace_map` written by `stopBackup`. -/
def tablespaceMapKey (name : Key) : Key := name ++ "/tablespace_map".toList

/-- `stopBackup` from the create-backup source: in exclusive mode only
the `pg_stop_backup()` statement runs; in non-exclusive mode the
statement returns the label and map payloads, the label is written under
the backup prefix (a put failure aborts), and the map is written unless
empty.  Returns the success flag, the store including any writes that
happened before a failure, and the events performed. -/
def stopBackup (env : CreateEnv) (s : Store) (name : Key) :
    Bool × Store × List Ev :=
  if env.exclusive then (env.stopStmtOk, s, [.sqlStop])
  else if ¬ env.stopStmtOk then (false, s, [.sqlStop])
  else if ¬ env.putLabelOk then (false, s, [.sqlStop])
  else
    let s1 := putObject s (backupLabelKey name) env.labelFile env.now
    let evs := [Ev.sqlStop, Ev.wrote (backupLabelKey name)]
    if env.mapFile = [] then (true, s1, evs)
    else if ¬ env.putMapOk then (false, s1, evs)
    else (true, putObject s1 (tablespaceMapKey name) env.mapFile env.now,
          evs ++ [Ev.wrote (tablespaceMapKey name)])

/-- `createBackup` from the create-backup source: refuse to overwrite an
existing backup, create the folder marker, run `pg_start_backup`, let
the workers upload, run `stopBackup`, then write the successful marker
(a failure here is only logged) and the `LATEST` pointer (a failure
here exits 1).  Returns the exit code, the final store, and the events
performed, in order. -/
def createBackup (env : CreateEnv) (s : Store) (name : Key) :
    Nat × Store × List Ev :=
  let bk := folderKey name
  if (getString s bk).isSome then (1, s, [.got bk])
  else if ¬ env.folderMarkerOk then (1, s, [.got bk])
  else
    let s1 := putObject s bk [] env.now
    let evs1 : List Ev := [.got bk, .wrote bk, .sqlStart]
    if ¬ env.startOk then (1, s1, evs1)
    else
      let s2 := applyUploads s1 env.uploads
      let evs2 := evs1 ++ env.uploads.map (fun u => Ev.wrote u.1)
      let stp := stopBackup env s2 name
      if ¬ stp.1 then (1, stp.2.1, evs2 ++ stp.2.2)
      else
        let s4 := if env.putMarkerOk
          then putObject stp.2.1 (successfulMarkerKey name) [] env.now
          else stp.2.1
        let evs4 := evs2 ++ stp.2.2 ++
          (if env.putMarkerOk then [Ev.wrote (successfulMarkerKey name)] else [])
        if ¬ env.putLatestOk then (1, s4, evs4)
        else (0, putObject s4 latestName name env.now,
              evs4 ++ [Ev.wrote latestName])

/-! ### delete-backup (claim C1) -/

/-- One iteration of the selection loop in `updateReferenceToLatest`
(delete-backup source): fetch the prefix's modified time (skip the
entry on error), check for its successful marker (skip on error), and
keep the entry when its mtime strictly exceeds the best so far. -/
def pickStep (s : Store) (acc : Key × Int) (bkp : Key) : Key × Int :=
  match getLastModifiedTime s bkp with
  | none => acc
  | some mt =>
    if (getString s (successfulMarkerKey bkp)).isSome then
      if mt > acc.2 then (bkp, mt) else acc
    else acc

/-- The whole selection loop, started from `newLatestKey = ""` and
`newLatestMTime = 0`. -/
def pickLatest (s : Store) (bkps : List Key) : Key × Int :=
  bkps.foldl (pickStep s) ([], 0)

/-- `updateReferenceToLatest` from the delete-backup source: resolve
`LATEST` (give up on error), do nothing unless it names the deleted
backup, list the root prefixes, run the selection loop, and when a
nonzero mtime was found point `LATEST` at the winner's name (the prefix
with its trailing slash trimmed). -/
def updateReferenceToLatest (s : Store) (name : Key) (now : Int) : Store :=
  match getString s latestName with
  | none => s
  | some latest =>
    if name = latest then
      let picked := pickLatest s (listRoot s)
      if picked.2 ≠ 0 then
        putObject s latestName (trimSuffixKey picked.1 ['/']) now
      else s
    else s

/-- The deletion phase of `DeleteBackup`: `traverseAndDelete` (the
workers delete every walked key), then `Delete` of the folder marker,
then `deleteSuccessfulMarker` (delete the marker when it exists). -/
def deletePhase (s : Store) (name : Key) : Store :=
  let s1 := (walkKeys s (folderKey name)).foldl deleteKey s
  let s2 := deleteKey s1 (folderKey name)
  if (getString s2 (successfulMarkerKey name)).isSome
    then deleteKey s2 (successfulMarkerKey name) else s2

/-- `DeleteBackup` from the delete-backup source: require the folder
marker to exist (else exit 1), run the deletion phase, then repair the
`LATEST` reference; exits 0. -/
def deleteBackup (s : Store) (name : Key) (now : Int) : Nat × Store :=
  if (getString s (folderKey name)).isSome then
    (0, updateReferenceToLatest (deletePhase s name) name now)
  else (1, s)

/-- A root prefix qualifies during LATEST repair iff its object exists
and its successful marker exists. -/
def qualP (s : Store) (p : Key) : Prop :=
  (getLastModifiedTime s p).isSome ∧ (getString s (successfulMarkerKey p)).isSome

instance (s : Store) (p : Key) : Decidable (qualP s p) := by
  unfold qualP
  infer_instance

/-- The folder-marker modified time the LATEST repair compares. -/
def mtOf (s : Store) (p : Key) : Int :=
  (getLastModifiedTime s p).getD 0

/-! ### Store lemmas -/

theorem getString_putObject (s : Store) (k b k' : Key) (mt : Int) :
    getString (putObject s k b mt) k'
      = if k' = k then some b else getString s k' := by
  unfold getString putObject
  rw [List.find?_cons]
  by_cases h : k' = k
  · subst h; simp
  · have hk : k ≠ k' := fun hh => h hh.symm
    simp [h, hk]

theorem getString_applyUploads_ne (ups : List (Key × Key × Int)) (s : Store)
    (k : Key) (h : ∀ u ∈ ups, u.1 ≠ k) :
    getString (applyUploads s ups) k = getString s k := by
  induction ups generalizing s with
  | nil => rfl
  | cons u t ih =>
    have hu : u.1 ≠ k := (h u (List.mem_cons_self u t))
    have ht : ∀ v ∈ t, v.1 ≠ k := fun v hv => h v (List.mem_cons_of_mem u hv)
    show getString (applyUploads (putObject s u.1 u.2.1 u.2.2) t) k = getString s k
    rw [ih _ ht, getString_putObject, if_neg (fun hh => hu hh.symm)]

theorem isSome_getString_applyUploads (ups : List (Key × Key × Int)) (s : Store)
    (k : Key) (h : (getString s k).isSome) :
    (getString (applyUploads s ups) k).isSome := by
  induction ups generalizing s with
  | nil => exact h
  | cons u t ih =>
    show (getString (applyUploads (putObject s u.1 u.2.1 u.2.2) t) k).isSome
    apply ih
    rw [getString_putObject]
    by_cases hk : k = u.1 <;> simp [hk, h]

theorem isSome_getString_applyUploads_mem (ups : List (Key × Key × Int))
    (s : Store) (u : Key × Key × Int) (hu : u ∈ ups) :
    (getString (applyUploads s ups) u.1).isSome := by
  induction ups generalizing s with
  | nil => cases hu
  | cons v t ih =>
    rcases List.mem_cons.mp hu with h | h
    · subst h
      show (getString (applyUploads (putObject s u.1 u.2.1 u.2.2) t) u.1).isSome
      apply isSome_getString_applyUploads
      rw [getString_putObject, if_pos rfl]
      rfl
    · exact ih _ h

/-! ### Key distinctness facts -/

theorem slash_mem_folderKey (name : Key) : '/' ∈ folderKey name := by
  simp [folderKey]

theorem latestName_ne_folderKey (name : Key) : latestName ≠ folderKey name := by
  intro h
  have hm : '/' ∈ latestName := h ▸ slash_mem_folderKey name
  revert hm
  decide

theorem successfulMarkerKey_ne_folderKey (name : Key) :
    successfulMarkerKey name ≠ folderKey name := by
  intro h
  have hl := congrArg List.length h
  by_cases hs : ['/'] <:+ name
  · have h1 : (1 : Nat) ≤ name.length := by
      simpa using hs.length_le
    simp [successfulMarkerKey, successfulName, folderKey, trimSuffixKey, hs] at hl
    omega
  · simp [successfulMarkerKey, successfulName, folderKey, trimSuffixKey, hs] at hl
    omega

theorem latestName_ne_successfulMarkerKey (n : Key) :
    latestName ≠ successfulMarkerKey n := by
  intro h
  have hm : 's' ∈ successfulMarkerKey n := by
    unfold successfulMarkerKey
    exact List.mem_append.mpr (Or.inl (by decide))
  rw [← h] at hm
  revert hm
  decide

/-! ### Deletion lemmas -/

theorem getLastModifiedTime_putObject (s : Store) (k b k' : Key) (mt : Int) :
    getLastModifiedTime (putObject s k b mt) k'
      = if k' = k then some mt else getLastModifiedTime s k' := by
  unfold getLastModifiedTime putObject
  rw [List.find?_cons]
  by_cases h : k' = k
  · subst h; simp
  · have hk : k ≠ k' := fun hh => h hh.symm
    simp [h, hk]

theorem getString_cons (o : Key × Key × Int) (t : Store) (k : Key) :
    getString (o :: t) k = if o.1 = k then some o.2.1 else getString t k := by
  unfold getString
  rw [List.find?_cons]
  by_cases h : o.1 = k <;> simp [h]

theorem getString_deleteKey (s : Store) (k k' : Key) :
    getString (deleteKey s k) k' = if k' = k then none else getString s k' := by
  induction s with
  | nil => simp [getString, deleteKey]
  | cons o t ih =>
    unfold deleteKey
    by_cases ho : o.1 = k
    · rw [if_pos ho, ih, getString_cons]
      by_cases h : k' = k
      · simp [h]
      · have hne : ¬ o.1 = k' := by
          rw [ho]
          exact fun hh => h hh.symm
        rw [if_neg h, if_neg h, if_neg hne]
    · rw [if_neg ho, getString_cons, getString_cons]
      by_cases hk' : o.1 = k'
      · have h : ¬ k' = k := by
          rw [← hk']
          exact ho
        rw [if_pos hk', if_neg h, if_pos hk']
      · rw [if_neg hk', ih, if_neg hk']

theorem getString_foldl_deleteKey (l : List Key) (s : Store) (k : Key) :
    getString (l.foldl deleteKey s) k = if k ∈ l then none else getString s k := by
  induction l generalizing s with
  | nil => simp
  | cons h t ih =>
    show getString (t.foldl deleteKey (deleteKey s h)) k = _
    rw [ih]
    by_cases hk : k ∈ t
    · simp [hk]
    · rw [getString_deleteKey]
      by_cases hkh : k = h <;> simp [hk, hkh]

theorem leadsKey_iff_append (p k : Key) :
    leadsKey p k = true ↔ ∃ t, k = p ++ t := by
  induction p generalizing k with
  | nil => simp [leadsKey]
  | cons a p ih =>
    cases k with
    | nil => simp [leadsKey]
    | cons b k2 =>
      simp only [leadsKey, Bool.and_eq_true, decide_eq_true_eq, ih,
        List.cons_append, List.cons.injEq]
      constructor
      · rintro ⟨rfl, t, rfl⟩
        exact ⟨t, rfl, rfl⟩
      · rintro ⟨t, rfl, rfl⟩
        exact ⟨rfl, t, rfl⟩

theorem slash_mem_of_leadsKey_folder (name k : Key)
    (h : leadsKey (folderKey name) k = true) : '/' ∈ k := by
  obtain ⟨t, rfl⟩ := (leadsKey_iff_append _ _).mp h
  simp [folderKey]

theorem latestName_notMem_walkKeys (s : Store) (name : Key) :
    latestName ∉ walkKeys s (folderKey name) := by
  intro hm
  unfold walkKeys at hm
  rw [List.mem_filter] at hm
  have h2 := hm.2
  rw [Bool.and_eq_true] at h2
  have : '/' ∈ latestName := slash_mem_of_leadsKey_folder _ _ h2.1
  revert this
  decide

/-- `GetString latestKey` is unchanged by the whole deletion phase. -/
theorem getString_deletePhase_latest (s : Store) (name : Key) :
    getString (deletePhase s name) latestName = getString s latestName := by
  unfold deletePhase
  have h1 : getString ((walkKeys s (folderKey name)).foldl deleteKey s) latestName
      = getString s latestName := by
    rw [getString_foldl_deleteKey, if_neg (latestName_notMem_walkKeys s name)]
  have h2 : getString (deleteKey ((walkKeys s (folderKey name)).foldl deleteKey s)
      (folderKey name)) latestName = getString s latestName := by
    rw [getString_deleteKey, if_neg (latestName_ne_folderKey name), h1]
  by_cases hmk : (getString (deleteKey ((walkKeys s (folderKey name)).foldl deleteKey s)
      (folderKey name)) (successfulMarkerKey name)).isSome
  · simp only [hmk, if_true]
    rw [getString_deleteKey, if_neg (latestName_ne_successfulMarkerKey name), h2]
  · simp only [hmk, if_false]
    exact h2

theorem slash_mem_rootPrefixOf (k p : Key) (h : rootPrefixOf k = some p) :
    '/' ∈ p := by
  induction k generalizing p with
  | nil => cases h
  | cons c rest ih =>
    unfold rootPrefixOf at h
    by_cases hc : c = '/'
    · rw [if_pos hc] at h
      cases h
      exact List.mem_singleton.mpr rfl
    · rw [if_neg hc] at h
      cases hrec : rootPrefixOf rest with
      | none => rw [hrec] at h; cases h
      | some q =>
        rw [hrec] at h
        cases h
        exact List.mem_cons_of_mem c (ih q hrec)

theorem slash_mem_of_mem_listRoot (s : Store) (p : Key) (h : p ∈ listRoot s) :
    '/' ∈ p := by
  unfold listRoot at h
  rw [List.mem_dedup, List.mem_filterMap] at h
  obtain ⟨k, _, hk⟩ := h
  exact slash_mem_rootPrefixOf k p hk

theorem ne_latestName_of_slash_mem (p : Key) (hp : '/' ∈ p) : p ≠ latestName := by
  intro h
  subst h
  revert hp
  decide

theorem listRoot_putLatest (s : Store) (v : Key) (now : Int) :
    listRoot (putObject s latestName v now) = listRoot s := by
  have h0 : rootPrefixOf latestName = none := by decide
  simp [listRoot, keysOf, putObject, List.filterMap_cons, h0]

theorem qualP_putLatest (s : Store) (v p : Key) (now : Int) (hp : '/' ∈ p) :
    qualP (putObject s latestName v now) p ↔ qualP s p := by
  have hne : p ≠ latestName := ne_latestName_of_slash_mem p hp
  unfold qualP
  rw [getLastModifiedTime_putObject, if_neg hne, getString_putObject,
    if_neg (fun h => latestName_ne_successfulMarkerKey p h.symm)]

theorem mtOf_putLatest (s : Store) (v p : Key) (now : Int) (hp : '/' ∈ p) :
    mtOf (putObject s latestName v now) p = mtOf s p := by
  have hne : p ≠ latestName := ne_latestName_of_slash_mem p hp
  unfold mtOf
  rw [getLastModifiedTime_putObject, if_neg hne]

/-! ### The selection loop -/

theorem pickLatest_fold_done (s : Store) (l : List Key) (k : Key) (m : Int)
    (h : ∀ p ∈ l, qualP s p → mtOf s p ≤ m) :
    l.foldl (pickStep s) (k, m) = (k, m) := by
  induction l with
  | nil => rfl
  | cons q t ih =>
    show t.foldl (pickStep s) (pickStep s (k, m) q) = (k, m)
    have hq : pickStep s (k, m) q = (k, m) := by
      unfold pickStep
      cases hmt : getLastModifiedTime s q with
      | none => rfl
      | some mt =>
        by_cases hmk : (getString s (successfulMarkerKey q)).isSome
        · have hle : mt ≤ m := by
            have hq2 := h q (List.mem_cons_self q t) ⟨by rw [hmt]; rfl, hmk⟩
            unfold mtOf at hq2
            rw [hmt] at hq2
            simpa using hq2
          simp [hmk, not_lt.mpr hle]
        · simp [hmk]
    rw [hq]
    exact ih (fun p hp hq2 => h p (List.mem_cons_of_mem _ hp) hq2)

theorem pickLatest_fold_wins (s : Store) (l : List Key) (p₀ : Key)
    (hq₀ : qualP s p₀) :
    ∀ acc : Key × Int, p₀ ∈ l → acc.2 < mtOf s p₀ →
    (∀ p ∈ l, qualP s p → mtOf s p ≤ mtOf s p₀) →
    (∀ p ∈ l, qualP s p → mtOf s p = mtOf s p₀ → p = p₀) →
    l.foldl (pickStep s) acc = (p₀, mtOf s p₀) := by
  induction l with
  | nil => intro acc h; cases h
  | cons q t ih =>
    intro acc hmem hacc hle htie
    show t.foldl (pickStep s) (pickStep s acc q) = _
    by_cases hq : q = p₀
    · subst hq
      obtain ⟨h1, h2⟩ := hq₀
      have hstep : pickStep s acc q = (q, mtOf s q) := by
        cases hmt : getLastModifiedTime s q with
        | none => rw [hmt] at h1; cases h1
        | some mt =>
          have hmtOf : mtOf s q = mt := by unfold mtOf; rw [hmt]; rfl
          have hgt : mt > acc.2 := by rw [← hmtOf]; exact hacc
          simp [pickStep, hmt, h2, hgt, hmtOf]
      rw [hstep]
      exact pickLatest_fold_done s t q (mtOf s q)
        (fun p hp hqp => hle p (List.mem_cons_of_mem _ hp) hqp)
    · have hp₀t : p₀ ∈ t := by
        rcases List.mem_cons.mp hmem with h | h
        · exact absurd h.symm hq
        · exact h
      have hacc2 : (pickStep s acc q).2 < mtOf s p₀ := by
        unfold pickStep
        cases hmt : getLastModifiedTime s q with
        | none => exact hacc
        | some mt =>
          by_cases hmk : (getString s (successfulMarkerKey q)).isSome
          · by_cases hgt : mt > acc.2
            · have hqq : qualP s q := ⟨by rw [hmt]; rfl, hmk⟩
              have hmtOf : mtOf s q = mt := by unfold mtOf; rw [hmt]; rfl
              have hb1 : mtOf s q ≤ mtOf s p₀ := hle q (List.mem_cons_self q t) hqq
              have hb2 : mtOf s q ≠ mtOf s p₀ :=
                fun he => hq (htie q (List.mem_cons_self q t) hqq he)
              simp only [hmk, if_true, hgt]
              rw [hmtOf] at hb1 hb2
              omega
            · simp only [hmk, if_true, hgt, if_false]
              exact hacc
          · simp only [hmk, if_false]
            exact hacc
      exact ih (pickStep s acc q) hp₀t hacc2
        (fun p hp => hle p (List.mem_cons_of_mem _ hp))
        (fun p hp => htie p (List.mem_cons_of_mem _ hp))

/-! ### LATEST repair, both outcomes -/

theorem updateReferenceToLatest_found (s : Store) (name : Key) (now : Int)
    (p₀ : Key)
    (hlatest : getString s latestName = some name)
    (hmem : p₀ ∈ listRoot s)
    (hq : qualP s p₀)
    (hpos : 0 < mtOf s p₀)
    (hdom : ∀ p ∈ listRoot s, p ≠ p₀ → qualP s p → mtOf s p < mtOf s p₀) :
    updateReferenceToLatest s name now
      = putObject s latestName (trimSuffixKey p₀ ['/']) now := by
  have hle : ∀ p ∈ listRoot s, qualP s p → mtOf s p ≤ mtOf s p₀ := by
    intro p hp hqp
    by_cases he : p = p₀
    · subst he; exact le_refl _
    · exact le_of_lt (hdom p hp he hqp)
  have htie : ∀ p ∈ listRoot s, qualP s p → mtOf s p = mtOf s p₀ → p = p₀ := by
    intro p hp hqp heq
    by_cases he : p = p₀
    · exact he
    · exact absurd heq (ne_of_lt (hdom p hp he hqp))
  have hpick : pickLatest s (listRoot s) = (p₀, mtOf s p₀) :=
    pickLatest_fold_wins s _ p₀ hq ([], 0) hmem hpos hle htie
  have hnz : mtOf s p₀ ≠ 0 := by omega
  simp [updateReferenceToLatest, hlatest, pickLatest] at hpick ⊢
  simp [hpick, hnz]

theorem updateReferenceToLatest_none (s : Store) (name : Key) (now : Int)
    (hlatest : getString s latestName = some name)
    (h : ∀ p ∈ listRoot s, qualP s p → mtOf s p ≤ 0) :
    updateReferenceToLatest s name now = s := by
  have hpick : pickLatest s (listRoot s) = ([], 0) :=
    pickLatest_fold_done s _ [] 0 h
  simp [updateReferenceToLatest, hlatest, pickLatest] at hpick ⊢
  simp [hpick]

theorem updateReferenceToLatest_shape (s : Store) (name : Key) (now : Int) :
    updateReferenceToLatest s name now = s
    ∨ ∃ v, updateReferenceToLatest s name now = putObject s latestName v now := by
  cases h : getString s latestName with
  | none =>
    left
    simp [updateReferenceToLatest, h]
  | some latest =>
    by_cases hn : name = latest
    · by_cases hz : (pickLatest s (listRoot s)).2 ≠ 0
      · right
        refine ⟨trimSuffixKey (pickLatest s (listRoot s)).1 ['/'], ?_⟩
        simp [updateReferenceToLatest, h, hn, hz]
      · left
        simp [updateReferenceToLatest, h, hn, hz]
    · left
      simp [updateReferenceToLatest, h, hn]

theorem updateReferenceToLatest_transfer (s : Store) (name : Key) (now : Int) :
    listRoot (updateReferenceToLatest s name now) = listRoot s
    ∧ (∀ p, '/' ∈ p →
        (qualP (updateReferenceToLatest s name now) p ↔ qualP s p))
    ∧ (∀ p, '/' ∈ p →
        mtOf (updateReferenceToLatest s name now) p = mtOf s p) := by
  rcases updateReferenceToLatest_shape s name now with hsh | ⟨v, hsh⟩ <;> rw [hsh]
  · exact ⟨rfl, fun p _ => Iff.rfl, fun p _ => rfl⟩
  · exact ⟨listRoot_putLatest s v now,
      fun p hp => qualP_putLatest s v p now hp,
      fun p hp => mtOf_putLatest s v p now hp⟩

/-! ### Claim C1: LATEST repair after delete-backup -/

/-- C1 (amended): after `DeleteBackup` of the backup named by `LATEST`
returns success, (a) if some remaining root prefix qualifies (its
object and its successful marker exist) with a strictly positive
modified time strictly greater than that of every other qualifying
prefix, then `LATEST` holds that prefix's name (trailing slash
trimmed); and (b) if every remaining qualifying prefix has modified
time at most 0 (in particular when none qualifies at all, or when the
only qualifying backups carry no `Modified_time` metadata), `LATEST`
is left unchanged. -/
theorem deleteBackup_latest_repair (s : Store) (name : Key) (now : Int)
    (h0 : (deleteBackup s name now).1 = 0)
    (h1 : getString s latestName = some name) :
    (∀ p₀ ∈ listRoot (deleteBackup s name now).2,
        qualP (deleteBackup s name now).2 p₀ →
        0 < mtOf (deleteBackup s name now).2 p₀ →
        (∀ p ∈ listRoot (deleteBackup s name now).2, p ≠ p₀ →
          qualP (deleteBackup s name now).2 p →
          mtOf (deleteBackup s name now).2 p
            < mtOf (deleteBackup s name now).2 p₀) →
        getString (deleteBackup s name now).2 latestName
          = some (trimSuffixKey p₀ ['/']))
    ∧ ((∀ p ∈ listRoot (deleteBackup s name now).2,
          qualP (deleteBackup s name now).2 p →
          mtOf (deleteBackup s name now).2 p ≤ 0) →
        getString (deleteBackup s name now).2 latestName = some name) := by
  have hex : (getString s (folderKey name)).isSome := by
    by_contra hne
    simp [deleteBackup, hne] at h0
  have hD : (deleteBackup s name now).2
      = updateReferenceToLatest (deletePhase s name) name now := by
    simp [deleteBackup, hex]
  have hlat3 : getString (deletePhase s name) latestName = some name := by
    rw [getString_deletePhase_latest]
    exact h1
  obtain ⟨hroot, hqual, hmt⟩ :=
    updateReferenceToLatest_transfer (deletePhase s name) name now
  rw [hD]
  constructor
  · intro p₀ hmem hq hpos hdom
    have hmem' : p₀ ∈ listRoot (deletePhase s name) := hroot ▸ hmem
    have hslash₀ : '/' ∈ p₀ := slash_mem_of_mem_listRoot _ _ hmem'
    have hq' : qualP (deletePhase s name) p₀ := (hqual p₀ hslash₀).mp hq
    have hpos' : 0 < mtOf (deletePhase s name) p₀ := by
      rw [← hmt p₀ hslash₀]
      exact hpos
    have hdom' : ∀ p ∈ listRoot (deletePhase s name), p ≠ p₀ →
        qualP (deletePhase s name) p →
        mtOf (deletePhase s name) p < mtOf (deletePhase s name) p₀ := by
      intro p hp hne hqp
      have hslash : '/' ∈ p := slash_mem_of_mem_listRoot _ _ hp
      have hlt := hdom p (hroot ▸ hp) hne ((hqual p hslash).mpr hqp)
      rw [hmt p hslash, hmt p₀ hslash₀] at hlt
      exact hlt
    rw [updateReferenceToLatest_found _ _ _ _ hlat3 hmem' hq' hpos' hdom',
      getString_putObject, if_pos rfl]
  · intro hall
    have hall' : ∀ p ∈ listRoot (deletePhase s name),
        qualP (deletePhase s name) p → mtOf (deletePhase s name) p ≤ 0 := by
      intro p hp hqp
      have hslash : '/' ∈ p := slash_mem_of_mem_listRoot _ _ hp
      have hle := hall p (hroot ▸ hp) ((hqual p hslash).mpr hqp)
      rw [hmt p hslash] at hle
      exact hle
    rw [updateReferenceToLatest_none _ _ _ hlat3 hall']
    exact hlat3

/-- A store refuting C1 as stated: `LATEST` names `b1`; after `b1` is
deleted, backup `b0` remains with its folder marker and its successful
marker — the remaining successful backup with the greatest
folder-marker modified time — but its marker carries no
`Modified_time` metadata (`GetLastModifiedTime` reports 0), so the
repair loop's strict `mtime > 0` comparison never selects it. -/
def c1Store : Store :=
  [ (latestName, "b1".toList, 0)
  , ("b1/".toList, [], 10)
  , ("successful/b1".toList, [], 0)
  , ("b0/".toList, [], 0)
  , ("successful/b0".toList, [], 0) ]

/-- C1 counterexample: the delete succeeds, `LATEST` pointed at the
deleted backup, `b0` remains qualifying (folder marker present,
successful marker present, and it is the only remaining backup), the
deleted backup's objects are gone — yet `LATEST` still says `b1`
instead of `b0`. -/
theorem deleteBackup_latest_repair_cex :
    (deleteBackup c1Store "b1".toList 99).1 = 0 ∧
    getString c1Store latestName = some "b1".toList ∧
    (getLastModifiedTime (deleteBackup c1Store "b1".toList 99).2 "b0/".toList).isSome ∧
    (getString (deleteBackup c1Store "b1".toList 99).2
        (successfulMarkerKey "b0/".toList)).isSome ∧
    getString (deleteBackup c1Store "b1".toList 99).2 "b1/".toList = none ∧
    getString (deleteBackup c1Store "b1".toList 99).2 latestName
      = some "b1".toList := by
  decide

/-- A store on which the amended C1 applies: `b0` remains with a
positive folder-marker mtime. -/
def c1GoodStore : Store :=
  [ (latestName, "b1".toList, 0)
  , ("b1/".toList, [], 10)
  , ("successful/b1".toList, [], 0)
  , ("b0/".toList, [], 5)
  , ("successful/b0".toList, [], 0) ]

/-- Witness for C1's amended statement: deleting `b1` repoints `LATEST`
at `b0`. -/
theorem deleteBackup_latest_repair_witness :
    getString (deleteBackup c1GoodStore "b1".toList 99).2 latestName
      = some (trimSuffixKey "b0/".toList ['/']) :=
  (deleteBackup_latest_repair c1GoodStore "b1".toList 99 (by decide)
      (by decide)).1
    "b0/".toList (by decide) (by decide) (by decide) (by decide)

/-! ### Claim C4: create-backup refuses to overwrite -/

/-- C4: when an object already exists at the folder-marker key
`<name>/`, `createBackup` exits 1 having performed only the existence
check: no SQL statement, no write, and the store unmodified. -/
theorem createBackup_refuses_overwrite (env : CreateEnv) (s : Store) (name : Key)
    (h : (getString s (folderKey name)).isSome) :
    createBackup env s name = (1, s, [Ev.got (folderKey name)]) := by
  simp [createBackup, h]

/-- Witness for C4 at a concrete store holding a `b1/` marker. -/
theorem createBackup_refuses_overwrite_witness :
    createBackup ⟨true, true, false, [], true, [], [], true, true, true, true, 0⟩
        [(("b1/").toList, [], 3)] "b1".toList
      = (1, [(("b1/").toList, [], 3)], [Ev.got (folderKey "b1".toList)]) :=
  createBackup_refuses_overwrite _ _ _ (by decide)

/-! ### Claim C2: pg_stop_backup failure leaves a visibly-incomplete backup -/

/-- C2: when `pg_stop_backup` fails (after a clean start on a fresh
name), `createBackup` exits 1, the `LATEST` pointer and the successful
marker are untouched, and the folder marker and every uploaded file are
still present. -/
theorem createBackup_stop_failure (env : CreateEnv) (s : Store) (name : Key)
    (hpre : getString s (folderKey name) = none)
    (hfm : env.folderMarkerOk = true)
    (hstart : env.startOk = true)
    (hstop : env.stopStmtOk = false)
    (hupl : ∀ u ∈ env.uploads, u.1 ≠ successfulMarkerKey name ∧ u.1 ≠ latestName) :
    (createBackup env s name).1 = 1 ∧
    getString (createBackup env s name).2.1 latestName = getString s latestName ∧
    getString (createBackup env s name).2.1 (successfulMarkerKey name)
      = getString s (successfulMarkerKey name) ∧
    ((getString (createBackup env s name).2.1 (folderKey name)).isSome) ∧
    ∀ u ∈ env.uploads, (getString (createBackup env s name).2.1 u.1).isSome := by
  have hR : createBackup env s name
      = (1, applyUploads (putObject s (folderKey name) [] env.now) env.uploads,
          ([Ev.got (folderKey name), Ev.wrote (folderKey name), Ev.sqlStart]
            ++ env.uploads.map (fun u => Ev.wrote u.1)) ++ [Ev.sqlStop]) := by
    by_cases hex : env.exclusive <;>
      simp [createBackup, stopBackup, hpre, hfm, hstart, hstop, hex]
  rw [hR]
  refine ⟨rfl, ?_, ?_, ?_, ?_⟩
  · rw [getString_applyUploads_ne _ _ _ (fun u hu => (hupl u hu).2),
      getString_putObject, if_neg (latestName_ne_folderKey name)]
  · rw [getString_applyUploads_ne _ _ _ (fun u hu => (hupl u hu).1),
      getString_putObject, if_neg (successfulMarkerKey_ne_folderKey name)]
  · apply isSome_getString_applyUploads
    rw [getString_putObject, if_pos rfl]
    rfl
  · intro u hu
    exact isSome_getString_applyUploads_mem _ _ u hu

/-- Witness for C2: a fresh store, one completed upload, stop fails. -/
theorem createBackup_stop_failure_witness :
    (createBackup ⟨true, true, false, [("b1/base/1".toList, "x".toList, 7)],
        false, [], [], true, true, true, true, 9⟩ [] "b1".toList).1 = 1 ∧
    getString (createBackup ⟨true, true, false, [("b1/base/1".toList, "x".toList, 7)],
        false, [], [], true, true, true, true, 9⟩ [] "b1".toList).2.1 latestName
      = getString [] latestName ∧
    getString (createBackup ⟨true, true, false, [("b1/base/1".toList, "x".toList, 7)],
        false, [], [], true, true, true, true, 9⟩ [] "b1".toList).2.1
        (successfulMarkerKey "b1".toList)
      = getString [] (successfulMarkerKey "b1".toList) ∧
    ((getString (createBackup ⟨true, true, false, [("b1/base/1".toList, "x".toList, 7)],
        false, [], [], true, true, true, true, 9⟩ [] "b1".toList).2.1
        (folderKey "b1".toList)).isSome) ∧
    ∀ u ∈ [("b1/base/1".toList, "x".toList, (7 : Int))],
      (getString (createBackup ⟨true, true, false, [("b1/base/1".toList, "x".toList, 7)],
          false, [], [], true, true, true, true, 9⟩ [] "b1".toList).2.1 u.1).isSome :=
  createBackup_stop_failure _ _ _ (by decide) rfl rfl rfl (by decide)

/-! ### Claim C3: a failed successful-marker write is only logged -/

/-- C3: when the successful-marker write fails but `pg_stop_backup` and
the `LATEST` update succeed, `createBackup` still exits 0. -/
theorem createBackup_marker_failure_exit0 (env : CreateEnv) (s : Store) (name : Key)
    (hpre : getString s (folderKey name) = none)
    (hfm : env.folderMarkerOk = true)
    (hstart : env.startOk = true)
    (hstop : env.stopStmtOk = true)
    (hlab : env.putLabelOk = true)
    (hmap : env.mapFile = [] ∨ env.putMapOk = true)
    (hmk : env.putMarkerOk = false)
    (hlat : env.putLatestOk = true) :
    (createBackup env s name).1 = 0 := by
  by_cases hex : env.exclusive
  · simp [createBackup, stopBackup, hpre, hfm, hstart, hstop, hex, hmk, hlat]
  · rcases hmap with hmap | hmap <;>
      by_cases hmf : env.mapFile = [] <;>
        simp_all [createBackup, stopBackup, hpre, hfm, hstart, hstop, hex, hmk,
          hlat, hlab]

/-- Witness for C3: marker write fails, everything else succeeds. -/
theorem createBackup_marker_failure_exit0_witness :
    (createBackup ⟨true, true, false, [], true, "lbl".toList, [], true, true,
        false, true, 4⟩ [] "b2".toList).1 = 0 :=
  createBackup_marker_failure_exit0 _ _ _ (by decide) rfl rfl rfl rfl
    (Or.inl rfl) rfl rfl

/-! ### Claim C5: compression threshold is a strict bound -/

/-- C5: a processed file (stat succeeded, not a directory, compression
available) is uploaded compressed under the `.lz4`-suffixed key iff its
size strictly exceeds the threshold; at exactly the threshold it is
uploaded uncompressed under the plain key. -/
theorem backupWorkerStep_strict_threshold (bn f : Key) (size mt th : Int) :
    (backupWorkerStep bn f true false size mt th true
        = .uploadFile (joinKey bn f ++ lz4Ext) true mt ↔ th < size) ∧
    (size = th → backupWorkerStep bn f true false size mt th true
        = .uploadFile (joinKey bn f) false mt) := by
  constructor
  · constructor
    · intro h
      by_contra hle
      simp [backupWorkerStep, hle] at h
    · intro h
      simp [backupWorkerStep, h]
  · intro h
    have hle : ¬ th < size := by omega
    simp [backupWorkerStep, hle]

/-- Witness for C5 at the boundary: a file of exactly the default
threshold size (524288 bytes) is uploaded uncompressed under the plain
key. -/
theorem backupWorkerStep_strict_threshold_witness :
    backupWorkerStep "b1".toList "base/2".toList true false 524288 7 524288 true
      = .uploadFile (joinKey "b1".toList "base/2".toList) false 7 :=
  (backupWorkerStep_strict_threshold "b1".toList "base/2".toList
      524288 7 524288).2 rfl

/-! ### Claim C6: archive-wal exit codes -/

/-- C6: `archiveWAL` exits 0 exactly when the working directory was
resolved, compression succeeded, and the upload succeeded; every other
run (in particular a failed upload) exits 1. -/
theorem archiveWAL_exit_codes (env : ArchiveWALEnv) (walPath : Key) :
    ((archiveWAL env walPath).1 = 0
      ↔ env.cwd.isSome ∧ env.compressResult.isSome ∧ env.putOk = true) ∧
    ((archiveWAL env walPath).1 = 0 ∨ (archiveWAL env walPath).1 = 1) := by
  obtain ⟨cwd, cr, putOk⟩ := env
  cases cwd <;> cases cr <;> cases putOk <;> simp [archiveWAL]

/-- Witness for C6 at a concrete run where everything succeeds. -/
theorem archiveWAL_exit_codes_witness :
    (archiveWAL ⟨some [], some "tmpfile".toList, true⟩
        "pg_xlog/000000010000000000000003".toList).1 = 0 :=
  (archiveWAL_exit_codes ⟨some [], some "tmpfile".toList, true⟩
      "pg_xlog/000000010000000000000003".toList).1.mpr (by decide)

/-! ### Claim C8: restore-wal ignores history files -/

theorem leadsKey_refl (k : Key) : leadsKey k k = true := by
  induction k with
  | nil => rfl
  | cons c t ih => simp [leadsKey, ih]

theorem historyMatch_of_anchored (f : Key) (h : anchoredHistory f = true) :
    historyMatch f = true := by
  unfold anchoredHistory at h
  simp only [ne_eq, Bool.and_eq_true, decide_eq_true_eq] at h
  have hhead : historyMatchAtHead f = true := by
    unfold historyMatchAtHead
    simp only [ne_eq, Bool.and_eq_true, decide_eq_true_eq]
    exact ⟨h.1, by rw [h.2]; exact leadsKey_refl _⟩
  cases f with
  | nil => exact absurd rfl h.1
  | cons c rest =>
    unfold historyMatch
    rw [hhead]
    rfl

/-- C8: for a filename matching the anchored pattern
`^[0-9]+\.history$`, `restoreWAL` exits 0 and performs no storage
operation (the working-directory resolution is the only thing that
precedes the check). -/
theorem restoreWAL_history_fast_path (env : RestoreWALEnv) (f p : Key)
    (hf : anchoredHistory f = true) (hc : env.cwd.isSome) :
    restoreWAL env f p = (.exit 0, []) := by
  obtain ⟨cwd, tmp, g, c, d⟩ := env
  cases cwd with
  | none => cases hc
  | some cw => simp [restoreWAL, historyMatch_of_anchored f hf]

/-- Witness for C8 at the spec's own example `00000002.history`. -/
theorem restoreWAL_history_fast_path_witness :
    restoreWAL ⟨some [], none, true, true, true⟩ "00000002.history".toList
        "pg_xlog/RECOVERYHISTORY".toList = (.exit 0, []) :=
  restoreWAL_history_fast_path _ _ _ (by decide) (by decide)

/-! ### Claim C9: IsCompressed totality -/

/-- C9 counterexample: on the one-character key "a" the Go slice index
`len(path)-len(".lz4")` is negative and `IsCompressed` panics instead
of returning false; the claim that it is total is refuted. -/
theorem isCompressed_not_total : isCompressed ['a'] = none := by decide

/-- C9 amended: on every key at least as long as the extension,
`IsCompressed` returns exactly the ".lz4"-suffix test (and on shorter
keys it panics, per `isCompressed_not_total`). -/
theorem isCompressed_suffix_test (path : Key)
    (h : lz4Ext.length ≤ path.length) :
    isCompressed path = some (decide (lz4Ext <:+ path)) := by
  have hn : ¬ path.length < lz4Ext.length := Nat.not_lt.mpr h
  have h2 : (lz4Ext <:+ path)
      ↔ (path.drop (path.length - lz4Ext.length) = lz4Ext) := by
    rw [List.suffix_iff_eq_drop]
    exact eq_comm
  unfold isCompressed
  rw [if_neg hn]
  congr 1
  exact decide_eq_decide.mpr h2.symm

/-- Witness for C9's amended statement on the key `base/x.lz4`. -/
theorem isCompressed_suffix_test_witness :
    isCompressed "base/x.lz4".toList
      = some (decide (lz4Ext <:+ "base/x.lz4".toList)) :=
  isCompressed_suffix_test _ (by decide)

/-! ### Claim C10: restore-wal crashes when TempFile fails -/

/-- C10: evaluating `restoreWAL` at a run where `ioutil.TempFile` fails
(non-history filename, working directory fine): the run dereferences
the nil temporary-file handle and panics instead of returning exit
status 1. -/
theorem restoreWAL_tmpfile_nil_panic :
    restoreWAL ⟨some [], none, true, true, true⟩
        "000000010000000000000001".toList "pg_xlog/RECOVERYXLOG".toList
      = (.panicked, []) := by decide

/-! ### list-backups (claim C7) -/

/-- One printed row of `listBackups`: the backup's name, the timestamp
used for sorting and the Created column, whether the successful marker
was found (`formatStatus` prints the literal incomplete marker iff this
is false), and whether the row gets the `(LATEST)` end-of-line tag. -/
structure BackupRow where
  name : Key
  timestamp : Int
  successful : Bool
  isLatest : Bool
  deriving DecidableEq

/-- Ascending order on the printed rows: the sort key of
`sort.Slice(backups, func(i, j) ... timestamp < ...)`. -/
def rowLe (a b : BackupRow) : Prop := a.timestamp ≤ b.timestamp

instance : DecidableRel rowLe := fun a b => Int.decLe a.timestamp b.timestamp

instance : IsTotal BackupRow rowLe := ⟨fun a b => Int.le_total a.timestamp b.timestamp⟩

instance : IsTrans BackupRow rowLe := ⟨fun _ _ _ h1 h2 => le_trans h1 h2⟩

/-- The entries `listBackups` (list-backups source) collects before
sorting: every root child prefix except the `successful` and `WAL`
folders, named by the prefix minus its trailing slash, carrying the
prefix object's modified time (0 when the head fails) and the presence
of its successful marker. -/
def listBackupsEntries (s : Store) : List BackupRow :=
  (listRoot s).filterMap (fun k =>
    if k.dropLast = successfulName ∨ k.dropLast = walName then none
    else some
      { name := k.dropLast
      , timestamp := (getLastModifiedTime s k).getD 0
      , successful := (getString s (successfulMarkerKey k.dropLast)).isSome
      , isLatest := false })

/-- `listBackups` from the list-backups source: collect the entries,
read `LATEST` (an error yields the empty name), sort ascending by
timestamp, and tag exactly the rows whose name equals the `LATEST`
body. -/
def listBackupsRows (s : Store) : List BackupRow :=
  let latest := (getString s latestName).getD []
  (List.insertionSort rowLe (listBackupsEntries s)).map
    (fun e => { e with isLatest := e.name = latest })

theorem mem_listBackupsEntries (s : Store) (e : BackupRow)
    (h : e ∈ listBackupsEntries s) :
    ∃ k ∈ listRoot s, e.name = k.dropLast
      ∧ e.name ≠ successfulName ∧ e.name ≠ walName
      ∧ e.timestamp = (getLastModifiedTime s k).getD 0
      ∧ e.successful = (getString s (successfulMarkerKey e.name)).isSome := by
  unfold listBackupsEntries at h
  rw [List.mem_filterMap] at h
  obtain ⟨k, hk, hfk⟩ := h
  by_cases hc : k.dropLast = successfulName ∨ k.dropLast = walName
  · rw [if_pos hc] at hfk
    cases hfk
  · rw [if_neg hc] at hfk
    rw [not_or] at hc
    injection hfk with hfk
    subst hfk
    exact ⟨k, hk, rfl, hc.1, hc.2, rfl, rfl⟩

/-- C7 (amended): with the `LATEST` body readable, `listBackups` prints
exactly the root children other than the reserved `successful` and
`WAL` folders (a child named `LATEST` is not filtered out), sorted
ascending by the folder marker's modified time; a row is marked
incomplete iff its successful marker is absent; and the `(LATEST)` tag
is attached exactly to the rows whose name equals the `LATEST` body. -/
theorem listBackups_rows_spec (s : Store) (lt : Key)
    (hl : getString s latestName = some lt) :
    List.Sorted rowLe (listBackupsRows s)
    ∧ (∀ r ∈ listBackupsRows s,
        r.name ≠ successfulName ∧ r.name ≠ walName
        ∧ (∃ k ∈ listRoot s, r.name = k.dropLast
            ∧ r.timestamp = (getLastModifiedTime s k).getD 0)
        ∧ r.successful = (getString s (successfulMarkerKey r.name)).isSome
        ∧ (r.isLatest = true ↔ r.name = lt))
    ∧ (∀ k ∈ listRoot s, k.dropLast ≠ successfulName → k.dropLast ≠ walName →
        ∃ r ∈ listBackupsRows s, r.name = k.dropLast) := by
  have hlt : (getString s latestName).getD [] = lt := by rw [hl]; rfl
  refine ⟨?_, ?_, ?_⟩
  · unfold listBackupsRows
    rw [hlt, List.Sorted, List.pairwise_map]
    exact (List.sorted_insertionSort rowLe (listBackupsEntries s)).imp
      (fun h => h)
  · intro r hr
    unfold listBackupsRows at hr
    rw [hlt, List.mem_map] at hr
    obtain ⟨e, he, hre⟩ := hr
    rw [List.mem_insertionSort] at he
    obtain ⟨k, hk, hname, hns, hnw, hts, hsc⟩ := mem_listBackupsEntries s e he
    subst hre
    refine ⟨hns, hnw, ⟨k, hk, hname, hts⟩, hsc, ?_⟩
    constructor
    · intro h
      simpa using h
    · intro h
      simpa using h
  · intro k hk hns hnw
    have hc : ¬ (k.dropLast = successfulName ∨ k.dropLast = walName) := by
      rw [not_or]
      exact ⟨hns, hnw⟩
    refine ⟨{ name := k.dropLast
            , timestamp := (getLastModifiedTime s k).getD 0
            , successful := (getString s (successfulMarkerKey k.dropLast)).isSome
            , isLatest := (k.dropLast = lt : Bool) }, ?_, rfl⟩
    unfold listBackupsRows
    rw [hlt, List.mem_map]
    refine ⟨{ name := k.dropLast
            , timestamp := (getLastModifiedTime s k).getD 0
            , successful := (getString s (successfulMarkerKey k.dropLast)).isSome
            , isLatest := false }, ?_, rfl⟩
    rw [List.mem_insertionSort]
    unfold listBackupsEntries
    rw [List.mem_filterMap]
    exact ⟨k, hk, by rw [if_neg hc]⟩

/-- A store refuting C7 as stated: a root child named `LATEST` (a
reserved name) exists and is not filtered out of the listing. -/
def c7Store : Store :=
  [ ("LATEST/".toList, [], 5)
  , (latestName, "x".toList, 0) ]

/-- C7 counterexample: the printed rows include an entry named
`LATEST`, a reserved name the claim says is never printed. -/
theorem listBackups_reserved_cex :
    ∃ r ∈ listBackupsRows c7Store, r.name = latestName := by decide

/-- Witness for C7's amended statement: the spec's own scenario —
`b1` (mtime 100, successful, `LATEST` body) and `b2` (mtime 200, no
marker). -/
def c7GoodStore : Store :=
  [ (latestName, "b1".toList, 0)
  , ("b1/".toList, [], 100)
  , ("successful/b1".toList, [], 0)
  , ("b2/".toList, [], 200) ]

/-- Witness for C7's amended statement at `c7GoodStore`. -/
theorem listBackups_rows_spec_witness :
    List.Sorted rowLe (listBackupsRows c7GoodStore)
    ∧ (∀ r ∈ listBackupsRows c7GoodStore,
        r.name ≠ successfulName ∧ r.name ≠ walName
        ∧ (∃ k ∈ listRoot c7GoodStore, r.name = k.dropLast
            ∧ r.timestamp = (getLastModifiedTime c7GoodStore k).getD 0)
        ∧ r.successful
            = (getString c7GoodStore (successfulMarkerKey r.name)).isSome
        ∧ (r.isLatest = true ↔ r.name = "b1".toList))
    ∧ (∀ k ∈ listRoot c7GoodStore, k.dropLast ≠ successfulName →
        k.dropLast ≠ walName →
        ∃ r ∈ listBackupsRows c7GoodStore, r.name = k.dropLast) :=
  listBackups_rows_spec c7GoodStore "b1".toList (by decide)

end PgCarpenter
